import Mathlib

/-!
Verification development for the `timetable` repository (a CLI tool that
scrapes university course timetables, resolves the user's per-section
activity selection, and renders a weekly grid / "next class" query).

The Python sources are shallowly embedded:
* dates are `Nat` — either an abstract proleptic ordinal (as produced by
  `datetime.date.toordinal`, so the weekday of ordinal `d` is `(d + 6) % 7`
  with Monday = 0), or, where a definition constructs dates from parsed
  day/month text, the order-preserving encoding `year * 10000 + month * 100
  + day`;
* times of day are `Nat` minutes since midnight;
* Python operations that can raise (`ValueError`, `IndexError`, the
  `TypeError` of an ill-typed comparison) are embedded as `Option`, with
  `none` standing for the raised exception;
* Python's stable `sorted` is embedded as a stable insertion sort;
* regular-expression digits (`\d`) are modelled on the ASCII range the
  source site produces.

`timetable/timetable.py` is the current library; `timetable/main.py` is a
superseded CLI revision whose `Activity` class no longer exists in the
repository, so the parts of its data the control flow needs (its ordering
and validity test) are modelled from the spec where indicated.
-/

/-- Weekday of a proleptic ordinal date, Monday = 0 (ordinal 1 is a Monday),
matching Python's `date.weekday()`. -/
def weekday (d : Nat) : Nat := (d + 6) % 7

/-- Embedding of `timetable.date_in_intervals`' per-interval test: an
interval (a tuple of dates) matches `d` when it is a one-element instant
equal to `d`, or a two-element inclusive range containing `d`. -/
def intervalHit (d : Nat) (iv : List Nat) : Bool :=
  (iv.length == 1 && (d == iv.getD 0 0)) ||
    (iv.length == 2 && decide (iv.getD 0 0 ≤ d) && decide (d ≤ iv.getD 1 0))

/-- Embedding of `timetable.date_in_intervals`: the loop returns `True` on
the first matching interval; after the loop the function returns
`len(intervals) == 0`. -/
def date_in_intervals (d : Nat) (intervals : List (List Nat)) : Bool :=
  intervals.any (intervalHit d) || intervals.isEmpty

/-- Embedding of `timetable.Location`: a place name plus the date intervals
during which that place applies. -/
structure Location where
  place : String
  valid_intervals : List (List Nat)
deriving DecidableEq, Repr

/-- Embedding of `timetable.Activity` (an `attr.s` class; the attrs field
order `activity_id, name, day, start, end, valid_intervals, locations`
determines the generated comparison operators).  `stop` stands for the
source's `end` attribute (`end` is a Lean keyword); `day` is the weekday
index produced by the `list(calendar.day_name).index` converter. -/
structure Activity where
  activity_id : Nat × Option Nat
  name : String
  day : Nat
  start : Nat
  stop : Nat
  valid_intervals : List (List Nat)
  locations : List Location
deriving DecidableEq, Repr

/-- Embedding of `timetable.Course` (title, year, semester and the scraped
activities). -/
structure Course where
  title : String
  year : Nat
  semester : Nat
  activities : List Activity
deriving DecidableEq, Repr

/-- Embedding of `timetable.Location.valid_for`:
`date_in_intervals(date.date(), self.valid_intervals)`. -/
def Location.valid_for (l : Location) (dateOrd : Nat) : Bool :=
  date_in_intervals dateOrd l.valid_intervals

/-- Embedding of `timetable.Activity.valid_for`:
`date.weekday() == self.day and date_in_intervals(date.date(), self.valid_intervals)`. -/
def Activity.valid_for (a : Activity) (dateOrd : Nat) : Bool :=
  (weekday dateOrd == a.day) && date_in_intervals dateOrd a.valid_intervals

/-- Stable insertion into a list sorted by `key`: the new element is placed
before the first element whose key is not smaller, i.e. after strictly
smaller keys and before equal keys (which, in the insertion sort below,
came later in the input).  This models the placement Python's stable
`sorted` gives elements. -/
def insertByKey (key : α → Nat) (x : α) : List α → List α
  | [] => [x]
  | y :: ys => if key y < key x then y :: insertByKey key x ys else x :: y :: ys

/-- Stable sort by a `Nat` key, embedding Python's `sorted(..., key=...)`
(Timsort is stable: elements with equal keys keep their input order). -/
def sortByKey (key : α → Nat) : List α → List α
  | [] => []
  | x :: xs => insertByKey key x (sortByKey key xs)

/-- Three-way comparison on `Nat`, the embedding of Python's `int`
comparison. -/
def cmpNat (a b : Nat) : Ordering :=
  if a < b then Ordering.lt else if a = b then Ordering.eq else Ordering.gt

/-- Python comparison of the optional sub-allocation part of an activity
id: `None` equals `None`, two ints compare as ints, and comparing `None`
with an int raises `TypeError` (embedded as `none`). -/
def pyCmpOptNat : Option Nat → Option Nat → Option Ordering
  | none, none => some Ordering.eq
  | some a, some b => some (cmpNat a b)
  | _, _ => none

/-- Python character comparison (by code point). -/
def cmpChar (a b : Char) : Ordering := cmpNat a.toNat b.toNat

/-- Python lexicographic comparison of sequences (tuples/lists/strings):
first unequal position decides; a strict prefix is smaller. -/
def cmpList (f : α → α → Ordering) : List α → List α → Ordering
  | [], [] => Ordering.eq
  | [], _ :: _ => Ordering.lt
  | _ :: _, [] => Ordering.gt
  | a :: as, b :: bs =>
    match f a b with
    | Ordering.eq => cmpList f as bs
    | Ordering.lt => Ordering.lt
    | Ordering.gt => Ordering.gt

/-- Python string comparison (lexicographic by code point). -/
def cmpStr (s t : String) : Ordering := cmpList cmpChar s.data t.data

/-- Python comparison of two `Location` values as attrs generates it:
lexicographic over `(place, valid_intervals)`. -/
def cmpLocation (x y : Location) : Ordering :=
  match cmpStr x.place y.place with
  | Ordering.eq => cmpList (cmpList cmpNat) x.valid_intervals y.valid_intervals
  | o => o

/-- Comparison of the attrs field tuple of `Activity` after the id:
`(name, day, start, end, valid_intervals, locations)`, all of which
compare without error. -/
def cmpActivityTail (a b : Activity) : Ordering :=
  (cmpStr a.name b.name).then ((cmpNat a.day b.day).then ((cmpNat a.start b.start).then
    ((cmpNat a.stop b.stop).then
      ((cmpList (cmpList cmpNat) a.valid_intervals b.valid_intervals).then
        (cmpList cmpLocation a.locations b.locations)))))

/-- Embedding of the comparison attrs generates for `timetable.Activity`:
Python compares the attribute tuples `(activity_id, name, day, start, end,
valid_intervals, locations)` lexicographically.  The id tuples
`(primary, sub)` compare element-wise; comparing a `None` sub-part with an
int raises `TypeError`, embedded as `none`. -/
def pyCmpActivity (a b : Activity) : Option Ordering :=
  match cmpNat a.activity_id.1 b.activity_id.1 with
  | Ordering.lt => some Ordering.lt
  | Ordering.gt => some Ordering.gt
  | Ordering.eq =>
    match pyCmpOptNat a.activity_id.2 b.activity_id.2 with
    | none => none
    | some Ordering.lt => some Ordering.lt
    | some Ordering.gt => some Ordering.gt
    | some Ordering.eq => some (cmpActivityTail a b)

/-- Embedding of the selection lookup
`selected_activities.get((course.title, activity.name), 1)`: the chosen
activity number for a `(course title, activity name)` key, defaulting
to `1` when the key is absent.  The Python dict is embedded as an
association list with distinct keys (config sections are unique). -/
def selGet (sel : List ((String × String) × Nat)) (k : String × String) : Nat :=
  match sel.find? (fun p => p.1 == k) with
  | some p => p.2
  | none => 1

/-- The intermediate list built inside the module-level
`timetable.activities_on` before sorting: chain every course's activities
into `(course, activity)` pairs and keep those whose primary id equals the
selected number for `(course.title, activity.name)` (default 1) and which
are valid on the date. -/
def selectedOn (courses : List Course) (dateOrd : Nat)
    (sel : List ((String × String) × Nat)) : List (Course × Activity) :=
  (courses.flatMap fun c => c.activities.map fun a => (c, a)).filter fun p =>
    (p.2.activity_id.1 == selGet sel (p.1.title, p.2.name)) && p.2.valid_for dateOrd

/-- Embedding of the module-level `timetable.activities_on(courses, date,
selected_activities)`: filter as in `selectedOn`, then sort by the
activity's start time (`sorted(filtered_activities, key=lambda capair:
capair[1].start)`). -/
def activities_on (courses : List Course) (dateOrd : Nat)
    (sel : List ((String × String) × Nat)) : List (Course × Activity) :=
  sortByKey (fun p => p.2.start) (selectedOn courses dateOrd sel)

/-- The ordering key claim C2 asserts for the output of `activities_on`:
weekday index, then start time, then course title (titles compared as
Python compares strings, by code point). -/
def claimKeyLe (p q : Course × Activity) : Bool :=
  match cmpNat p.2.day q.2.day with
  | Ordering.lt => true
  | Ordering.gt => false
  | Ordering.eq =>
    match cmpNat p.2.start q.2.start with
    | Ordering.lt => true
    | Ordering.gt => false
    | Ordering.eq => cmpStr p.1.title q.1.title != Ordering.gt

/-- Embedding of the module constant `timetable.UC_URL`. -/
def UC_URL : String := "http://www.canterbury.ac.nz/courseinfo/GetCourseDetails.aspx"

/-- Embedding of the property `timetable.Course.url`: note the source
computes `year_identifier = self.year % 1000`. -/
def Course.url (c : Course) : String :=
  UC_URL ++ "?course=" ++ c.title ++ "&occurrence=" ++
    (toString (c.year % 1000) ++ "S" ++ toString c.semester ++ "(C)") ++
    "&year=" ++ toString c.year

/-- The URL the spec sentence behind claim C9 describes, with the
occurrence code built from `year % 100` (refinement reference, written
from the spec's words). -/
def Course.urlClaim100 (c : Course) : String :=
  UC_URL ++ "?course=" ++ c.title ++ "&occurrence=" ++
    (toString (c.year % 100) ++ "S" ++ toString c.semester ++ "(C)") ++
    "&year=" ++ toString c.year

/-- Python's `str.split(sep)` for a one-character separator, on character
lists (structural recursion, so concrete inputs evaluate). -/
def splitChar (sep : Char) : List Char → List (List Char)
  | [] => [[]]
  | c :: rest =>
    match splitChar sep rest with
    | g :: gs => if c = sep then [] :: g :: gs else (c :: g) :: gs
    | [] => [[c]]

/-- Python's `str.split(', ')` (the separator used for location date
lists), on character lists: non-overlapping left-to-right matches. -/
def splitCommaSpace : List Char → List (List Char)
  | [] => [[]]
  | [c] => [[c]]
  | c :: d :: rest =>
    if c = ',' ∧ d = ' ' then [] :: splitCommaSpace rest
    else
      match splitCommaSpace (d :: rest) with
      | g :: gs => (c :: g) :: gs
      | [] => [[c]]

/-- Python's `str.strip()`, on character lists. -/
def trimChars (cs : List Char) : List Char :=
  ((cs.dropWhile Char.isWhitespace).reverse.dropWhile Char.isWhitespace).reverse

/-- Split on single whitespace characters, on character lists (the
nonempty groups are the whitespace-separated words, matching the `\s+`
separator `strptime` compiles for a blank in the format). -/
def splitWs : List Char → List (List Char)
  | [] => [[]]
  | c :: rest =>
    match splitWs rest with
    | g :: gs => if Char.isWhitespace c then [] :: g :: gs else (c :: g) :: gs
    | [] => [[c]]

/-- The whitespace-separated words of a character list. -/
def wordsOf (cs : List Char) : List (List Char) :=
  (splitWs cs).filter (· ≠ [])

/-- First index of an element in a list (Python `list.index`, as an
`Option`). -/
def idxOf? [BEq α] (x : α) : List α → Option Nat
  | [] => none
  | y :: ys => if x == y then some 0 else (idxOf? x ys).map (· + 1)

/-- Numeric value of a list of ASCII digits, as Python's `int` reads the
digit groups captured by `\d+` (leading zeros allowed). -/
def natOfDigits (ds : List Char) : Nat :=
  ds.foldl (fun n c => n * 10 + (c.toNat - 48)) 0

/-- Embedding of `timetable.parse_id` and its regex
`^(?P<id>\d+)(-P(?P<part>\d+))?`: the string must begin with digits
(otherwise `re.match` fails and the source raises `ValueError`); an
optional `-P<digits>` suffix supplies the sub-allocation part; because the
pattern is not end-anchored, any trailing text is ignored, and a `-P` not
followed by a digit simply leaves the optional group unmatched. -/
def parse_id (s : String) : Option (Nat × Option Nat) :=
  let ds := s.data.takeWhile Char.isDigit
  if ds.isEmpty then none
  else
    let rest := s.data.drop ds.length
    match rest with
    | '-' :: 'P' :: tl =>
      let ps := tl.takeWhile Char.isDigit
      if ps.isEmpty then some (natOfDigits ds, none)
      else some (natOfDigits ds, some (natOfDigits ps))
    | _ => some (natOfDigits ds, none)

/-- One numeric field of a `strptime` format: one or two ASCII digits whose
value lies in `[lo, hi]` (this is how `%H`, `%M`, `%d` and `%m` are
compiled by `_strptime`). -/
def parseBoundedNum (lo hi : Nat) (cs : List Char) : Option Nat :=
  if cs.length == 0 || decide (2 < cs.length) || !cs.all Char.isDigit then none
  else
    let v := natOfDigits cs
    if lo ≤ v ∧ v ≤ hi then some v else none

/-- The day-of-month field `%d` as `_strptime` compiles it:
`3[01]|[12]\d|0[1-9]|[1-9]| [1-9]` — one or two digits valued 1–31, or a
single space followed by a nonzero digit (space-padded days). -/
def parseDayField (cs : List Char) : Option Nat :=
  match cs with
  | [' ', c] => if c.isDigit ∧ c ≠ '0' then some (c.toNat - 48) else none
  | _ => parseBoundedNum 1 31 cs

/-- `strptime(t, '%H:%M')` as minutes since midnight: hours 0–23, minutes
0–59, a single `:` separator, nothing left over. -/
def parseHM (cs : List Char) : Option Nat :=
  match splitChar ':' cs with
  | [h, m] => do
    let hv ← parseBoundedNum 0 23 h
    let mv ← parseBoundedNum 0 59 m
    some (hv * 60 + mv)
  | _ => none

/-- The time-range parse in `timetable.Activity.from_element`:
`activity_time.text.strip().split('-')` must unpack into exactly a start
and an end, each parsed with `strptime(t.strip(), '%H:%M')`. -/
def parseTimeRange (s : String) : Option (Nat × Nat) :=
  match (splitChar '-' (trimChars s.data)).map trimChars with
  | [a, b] => do
    let x ← parseHM a
    let y ← parseHM b
    some (x, y)
  | _ => none

/-- Days in each month of the year 1900 (the default year `strptime`
validates day-of-month against before the source replaces the year). -/
def daysInMonth1900 (m : Nat) : Nat :=
  if m == 2 then 28
  else if m == 4 || m == 6 || m == 9 || m == 11 then 30
  else 31

/-- The order-preserving `Nat` encoding of a calendar date used by the
parsing embeddings. -/
def mkDate (y m d : Nat) : Nat := y * 10000 + m * 100 + d

/-- `strptime(s, '%d/%m')` followed by `.replace(year=in_year).date()`, as
in `timetable.Location.from_string`: a `%d` day (including the
space-padded form), one `/`, month 1–12, nothing left over; the day is
also bounded by the month's length in `strptime`'s default year 1900. -/
def parse_dm (in_year : Nat) (s : String) : Option Nat :=
  match splitChar '/' s.data with
  | [d, m] => do
    let dv ← parseDayField d
    let mv ← parseBoundedNum 1 12 m
    if dv ≤ daysInMonth1900 mv then some (mkDate in_year mv dv) else none
  | _ => none

/-- Month abbreviations recognised by `strptime`'s `%b` (matched
case-insensitively). -/
def monthAbbrs : List String :=
  ["jan", "feb", "mar", "apr", "may", "jun", "jul", "aug", "sep", "oct", "nov", "dec"]

/-- `strptime(s.strip(), '%d %b')` followed by `.replace(year=in_year)
.date()`, as in `timetable.parse_week_interval`: a day number, whitespace,
and a month abbreviation (`%b`, case-insensitive), nothing left over. -/
def parse_d_mon (in_year : Nat) (s : String) : Option Nat :=
  match wordsOf (trimChars s.data) with
  | [d, mon] => do
    let dv ← parseBoundedNum 1 31 d
    let mv ← idxOf? (String.mk (mon.map Char.toLower)) monthAbbrs
    if dv ≤ daysInMonth1900 (mv + 1) then some (mkDate in_year (mv + 1) dv) else none
  | _ => none

/-- Embedding of `timetable.parse_week_interval`: split the interval text
on `-` and parse every piece with `%d %b`; the result tuple has one entry
per piece (one piece gives an instant, two give a range). -/
def parse_week_interval (in_year : Nat) (s : String) : Option (List Nat) :=
  (splitChar '-' s.data).mapM fun piece => parse_d_mon in_year (String.mk piece)

/-- First `(` of a character list that has at least one following
character: returns `(characters before it, characters after it)`, or
`none` when every `(` (if any) is the final character. -/
def findParen : List Char → Option (List Char × List Char)
  | [] => none
  | c :: rest =>
    if c = '(' then
      match rest with
      | [] => none
      | d :: ds => some ([], d :: ds)
    else
      match findParen rest with
      | none => none
      | some p => some (c :: p.1, p.2)

/-- The `(` opened by `re.match` for
`^(?P<name>.+?)?\((?P<date>.+?)\)?$` on a newline-free string: the
optional name group is greedy, so the engine first tries a nonempty lazy
name — the shortest nonempty prefix ending at a `(` whose remainder is
nonempty, i.e. the first `(` at index ≥ 1 with a following character —
and only if no such `(` exists does the name group go absent, requiring
the string to start with `(` (again with a following character).
Returns `(name characters, characters after the opened paren)`. -/
def regexParen : List Char → Option (List Char × List Char)
  | [] => none
  | c :: rest =>
    match findParen rest with
    | some p => some (c :: p.1, p.2)
    | none =>
      if c = '(' then
        match rest with
        | [] => none
        | d :: ds => some ([], d :: ds)
      else none

/-- The character list a `re.match` against the whole string effectively
operates on: `$` matches at the end of the string or just before one
final newline, so a single trailing `'\n'` is dropped. -/
def lineCore (cs : List Char) : List Char :=
  if cs.getLast? == some '\n' then cs.dropLast else cs

/-- The `(name, date)` groups of `re.match(LOCATION_RE, s)` for
`^(?P<name>.+?)?\((?P<date>.+?)\)?$`: at most one trailing newline is
dropped (`$` also matches before it); any remaining newline makes the
match fail, since `.` matches no newline; the opened `(` is chosen as in
`regexParen`; the date group is the text after that `(`, minus one
trailing `)` if present (the close paren is optional and the date group
is lazy, so it surrenders a final `)` when it can). -/
def locationMatch (s : String) : Option (String × String) :=
  if (lineCore s.data).any (fun c => c == '\n') then none
  else
    match regexParen (lineCore s.data) with
    | none => none
    | some (before, after) =>
      let t := if decide (2 ≤ after.length) && (after.getLast? == some ')')
        then after.dropLast else after
      some (String.mk before, String.mk t)

/-- Embedding of `timetable.Location.from_string`: when `LOCATION_RE` does
not match, the whole string is the place and the interval list is empty;
when it matches, the date group is split on `', '`, every piece on `-`,
and every fragment is parsed with `%d/%m` — any fragment that fails makes
the whole call raise `ValueError` (`none`). -/
def location_from_string (in_year : Nat) (s : String) : Option Location :=
  match locationMatch s with
  | none => some ⟨s, []⟩
  | some (namePart, datePart) =>
    match (splitCommaSpace datePart.data).mapM
        (fun iv => (splitChar '-' iv).mapM fun p => parse_dm in_year (String.mk p)) with
    | none => none
    | some ivs => some ⟨String.mk (trimChars namePart.data), ivs⟩

/-- The well-formedness of a parenthesized date list as the sentence behind
claim C10 states it: a comma-separated list whose entries are each a `d/m`
date or a `d/m-d/m` range (reference definition written from the claim's
words, to be compared with the source's behaviour). -/
def claimContentValid (in_year : Nat) (content : String) : Bool :=
  (splitCommaSpace content.data).all fun iv =>
    match (splitChar '-' iv).map fun p => parse_dm in_year (String.mk p) with
    | [some _] => true
    | [some _, some _] => true
    | _ => false

/-- `calendar.day_name` (the converter `list(calendar.day_name).index`
turns a day name into a weekday index). -/
def dayNames : List String :=
  ["Monday", "Tuesday", "Wednesday", "Thursday", "Friday", "Saturday", "Sunday"]

/-- One scraped table row as `timetable.Activity.from_element` reads it:
the text of the `Activity`, `Day`, `Time`, `Location` and `Weeks` cells. -/
structure Row where
  activity : String
  day : String
  time : String
  location : String
  weeks : String
deriving DecidableEq, Repr

/-- Embedding of `timetable.Activity.from_element` on a row whose cells are
all present: the weeks cell is split on newlines into week intervals, the
location cell into location strings (blank ones dropped), the time range
must unpack into start and end, the id must match `parse_id`, and the day
name must appear in `calendar.day_name`; any failure raises (`none`). -/
def rowToActivity (sectionTitle : String) (in_year : Nat) (r : Row) : Option Activity := do
  let ivs ← (splitChar '\n' r.weeks.data).mapM fun w =>
    parse_week_interval in_year (String.mk w)
  let locs ← (((splitChar '\n' r.location.data).map trimChars).filter (· ≠ [])).mapM
    fun l => location_from_string in_year (String.mk l)
  let (st, en) ← parseTimeRange r.time
  let aid ← parse_id (String.mk (trimChars r.activity.data))
  let d ← idxOf? (String.mk (trimChars r.day.data)) dayNames
  some ⟨aid, sectionTitle, d, st, en, ivs, locs⟩

/-- Embedding of the parsing step of `timetable.Course.fetch_activities`:
`self.activities = [Activity.from_element(section.text, self.year, e) for
section, e in activities]` — a single list comprehension, so one failing
row raises out of the whole assignment.  Rows are given already paired
with their section header's text (the HTML traversal that pairs them is
not part of the claims). -/
def fetch_parse (in_year : Nat) (rows : List (String × Row)) : Option (List Activity) :=
  rows.mapM fun p => rowToActivity p.1 in_year p.2

/-- One entry of the per-day activity buckets `main.cli` builds:
`(activity, section_name, course)`.  The superseded `Activity` class
`main.py` uses is gone from the repository, so the record carries exactly
the data the surviving control flow reads: the activity's weekday, its
start and end times (minutes since midnight, read from `start_time` /
`end_time` at minute granularity), its week-validity intervals, and the
course title / section name the renderer prints. -/
structure MItem where
  day : Nat
  startHM : Nat
  endHM : Nat
  valid_intervals : List (List Nat)
  courseTitle : String
  sectionName : String
deriving DecidableEq, Repr

/-- Embedding of `main.activity_as_str`: `f'{course.title} {section}'`. -/
def activity_as_str (i : MItem) : String := i.courseTitle ++ " " ++ i.sectionName

/-- Python's `sep.join(strings)`. -/
def strJoin (sep : String) : List String → String
  | [] => ""
  | [x] => x
  | x :: y :: ys => x ++ sep ++ strJoin sep (y :: ys)

/-- Modelled from the spec: the validity test of the superseded `Activity`
class used by `main.py` (absent from the repository) — "`valid_for(date) ->
bool`: weekday match AND within weekly validity intervals". -/
def validForM (i : MItem) (dateOrd : Nat) : Bool :=
  (weekday dateOrd == i.day) && date_in_intervals dateOrd i.valid_intervals

/-- The loop of `main.show_next`: walk the day's activities (already
sorted); while nothing is collected, the first activity whose start is
strictly after the query's hour-and-minute becomes the group; afterwards
activities with the same start time are appended and the first different
start time breaks out of the loop.  (`today < today.replace(hour=...,
minute=...)` compares exactly the `(hour, minute)` pairs, since the other
datetime fields coincide.) -/
def nextLoop (t : Nat) (acc : List MItem) : List MItem → List MItem
  | [] => acc
  | a :: rest =>
    match acc.getLast? with
    | some l => if a.startHM == l.startHM then nextLoop t (acc ++ [a]) rest else acc
    | none => if t < a.startHM then nextLoop t [a] rest else nextLoop t acc rest

/-- `main.show_next`'s computation of `next_classes` from the (sorted)
bucket of the query's weekday. -/
def show_next_classes (t : Nat) (xs : List MItem) : List MItem := nextLoop t [] xs

/-- Reference definition written from the spec's words for claim C5: among
the given activities, those whose start time is strictly after the query
time, restricted to the group sharing the earliest such start. -/
def specNextGroup (t : Nat) (xs : List MItem) : List MItem :=
  match xs.filter (fun i => decide (t < i.startHM)) with
  | [] => []
  | y :: ys => (y :: ys).takeWhile (fun i => i.startHM == y.startHM)

/-- `main.render_day`'s bin index for an activity:
`(activity.start_time - day_start).seconds // 3600` with `day_start =
08:00`; a Python `timedelta`'s `seconds` attribute is the signed duration
normalised into `[0, 86400)`, i.e. `(startHM - 480) * 60 mod 86400`,
written here as the equal `Nat` expression
`(startHM * 60 + 86400 - 28800) % 86400` (equal for every time of day,
`startHM < 1440`). -/
def hourIndex (startHM : Nat) : Nat :=
  ((startHM * 60 + 57600) % 86400) / 3600

/-- `main.render_day`'s bin count for an activity:
`(end_time - start_time).seconds // 3600`, again via the `[0, 86400)`
normalisation of `timedelta.seconds`, as the equal `Nat` expression for
times of day. -/
def lengthHours (s e : Nat) : Nat :=
  ((e * 60 + 86400 - s * 60) % 86400) / 3600

/-- The placement loop of `main.render_day`: `for i in
range(length_in_hours): binned_activities[hour_index + i].append(activity)`
— each append indexes the 9-element bin list and raises `IndexError`
(`none`) when the index is out of range. -/
def placeIn (it : MItem) : List (List MItem) → Nat → Nat → Option (List (List MItem))
  | bins, _, 0 => some bins
  | bins, idx, n + 1 =>
    if idx < bins.length
    then placeIn it (bins.set idx (bins.getD idx [] ++ [it])) (idx + 1) n
    else none

/-- The binning loop of `main.render_day` over the day's sorted
activities: each activity is placed in turn; a raised `IndexError`
aborts the whole rendering. -/
def binAllAux (bins : List (List MItem)) : List MItem → Option (List (List MItem))
  | [] => some bins
  | it :: rest =>
    match placeIn it bins (hourIndex it.startHM) (lengthHours it.startHM it.endHM) with
    | none => none
    | some bins2 => binAllAux bins2 rest

/-- The binning pass of `main.render_day`, starting from the 9 empty
hourly bins of `TIMES` (`08:00 - 09:00` … `16:00 - 17:00`). -/
def binAll (items : List MItem) : Option (List (List MItem)) :=
  binAllAux (List.replicate 9 []) items

/-- Embedding of `main.render_day`: sort the day's activities (the
superseded `Activity` ordering is modelled from the spec — primarily by
weekday, secondarily by start time, and within a single day's bucket that
is the start time), bin them, and emit the day name followed by one
newline-joined cell per hourly bin. -/
def render_day (day : String) (items : List MItem) : Option (List String) :=
  (binAll (sortByKey (fun i => i.startHM) items)).map fun bins =>
    day :: bins.map fun b => strJoin "\n" (b.map activity_as_str)

theorem mem_insertByKey (key : α → Nat) (x a : α) (l : List α) :
    a ∈ insertByKey key x l ↔ a = x ∨ a ∈ l := by
  induction l with
  | nil => simp [insertByKey]
  | cons y ys ih =>
    unfold insertByKey
    by_cases h : key y < key x
    · simp only [if_pos h, List.mem_cons, ih]
      tauto
    · simp only [if_neg h, List.mem_cons]

theorem mem_sortByKey (key : α → Nat) (a : α) (l : List α) :
    a ∈ sortByKey key l ↔ a ∈ l := by
  induction l with
  | nil => simp [sortByKey]
  | cons x xs ih => simp [sortByKey, mem_insertByKey, ih]

theorem pairwise_insertByKey (key : α → Nat) (x : α) (l : List α)
    (h : l.Pairwise (fun a b => key a ≤ key b)) :
    (insertByKey key x l).Pairwise (fun a b => key a ≤ key b) := by
  induction l with
  | nil => simp [insertByKey]
  | cons y ys ih =>
    rw [List.pairwise_cons] at h
    obtain ⟨hy, hys⟩ := h
    unfold insertByKey
    by_cases hlt : key y < key x
    · rw [if_pos hlt, List.pairwise_cons]
      refine ⟨?_, ih hys⟩
      intro a ha
      rw [mem_insertByKey] at ha
      rcases ha with rfl | ha
      · omega
      · exact hy a ha
    · rw [if_neg hlt, List.pairwise_cons]
      refine ⟨?_, List.pairwise_cons.mpr ⟨hy, hys⟩⟩
      intro a ha
      rcases List.mem_cons.mp ha with rfl | ha
      · omega
      · exact le_trans (by omega) (hy a ha)

theorem pairwise_sortByKey (key : α → Nat) (l : List α) :
    (sortByKey key l).Pairwise (fun a b => key a ≤ key b) := by
  induction l with
  | nil => simp [sortByKey]
  | cons x xs ih => exact pairwise_insertByKey key x _ ih

theorem filter_insertByKey (key : α → Nat) (x : α) (l : List α) (k : Nat) :
    (insertByKey key x l).filter (fun a => key a == k) =
      if key x = k then x :: l.filter (fun a => key a == k)
      else l.filter (fun a => key a == k) := by
  induction l with
  | nil =>
    by_cases hx : key x = k <;>
      simp [insertByKey, List.filter_cons, beq_iff_eq, hx]
  | cons y ys ih =>
    unfold insertByKey
    by_cases hlt : key y < key x
    · rw [if_pos hlt]
      by_cases hx : key x = k
      · have hy : ¬ (key y = k) := by omega
        simp [List.filter_cons, beq_iff_eq, hx, hy, ih]
      · by_cases hy : key y = k <;> simp [List.filter_cons, beq_iff_eq, hx, hy, ih]
    · rw [if_neg hlt]
      by_cases hx : key x = k <;> simp [List.filter_cons, beq_iff_eq, hx]

theorem filter_sortByKey (key : α → Nat) (l : List α) (k : Nat) :
    (sortByKey key l).filter (fun a => key a == k) = l.filter (fun a => key a == k) := by
  induction l with
  | nil => simp [sortByKey]
  | cons x xs ih =>
    rw [sortByKey, filter_insertByKey]
    by_cases hx : key x = k <;> simp [List.filter_cons, hx, ih]

/-- **C4** — `date_in_intervals(D, L)` is true iff `L` is empty, or `D`
equals some one-element instant of `L`, or some two-element range of `L`
contains `D` inclusively on both boundaries (in particular when `D` is
exactly a range's start or end). -/
theorem c4_date_in_intervals_iff (d : Nat) (L : List (List Nat)) :
    date_in_intervals d L = true ↔
      (L = [] ∨ (∃ a, [a] ∈ L ∧ d = a) ∨ (∃ a b, [a, b] ∈ L ∧ a ≤ d ∧ d ≤ b)) := by
  unfold date_in_intervals
  rw [Bool.or_eq_true, List.any_eq_true, List.isEmpty_iff]
  constructor
  · rintro (⟨iv, hmem, hhit⟩ | hnil)
    · right
      unfold intervalHit at hhit
      rw [Bool.or_eq_true] at hhit
      rcases hhit with h1 | h2
      · left
        simp only [Bool.and_eq_true, beq_iff_eq] at h1
        obtain ⟨hlen, hd⟩ := h1
        match iv, hlen with
        | [a], _ => exact ⟨a, by simpa using hmem, by simpa using hd⟩
      · right
        simp only [Bool.and_eq_true, beq_iff_eq, decide_eq_true_eq] at h2
        obtain ⟨⟨hlen, hle⟩, hge⟩ := h2
        match iv, hlen with
        | [a, b], _ =>
          exact ⟨a, b, by simpa using hmem, by simpa using hle, by simpa using hge⟩
    · exact Or.inl hnil
  · rintro (hnil | ⟨a, hmem, hd⟩ | ⟨a, b, hmem, hle, hge⟩)
    · exact Or.inr (by simp [hnil])
    · refine Or.inl ⟨[a], hmem, ?_⟩
      unfold intervalHit
      simp [hd]
    · refine Or.inl ⟨[a, b], hmem, ?_⟩
      unfold intervalHit
      simp [hle, hge]

/-- **C1, counterexample** — the claim says an out-of-range configured
index falls back to the first available offering.  Concretely: a course
whose section has two offerings (primary ids 1 and 2) and a stored
selection of 3 for it.  The claim requires the resolver to return the
id-1 offering; `activities_on` filters on primary id equality and returns
the empty list — the section silently yields nothing (the second conjunct
shows the offerings were valid on the queried date, so the emptiness comes
from the selection filter alone). -/
theorem c1_counterexample :
    activities_on
        [⟨"COSC262", 2018, 1,
          [⟨(1, none), "Lecture A", 0, 600, 660, [], []⟩,
           ⟨(2, none), "Lecture A", 0, 600, 660, [], []⟩]⟩]
        8 [(("COSC262", "Lecture A"), 3)] = [] ∧
      Activity.valid_for ⟨(1, none), "Lecture A", 0, 600, 660, [], []⟩ 8 = true := by
  decide

/-- **C1, amended** — selection resolution keeps exactly the
`(course, activity)` pairs whose activity's primary id equals the number
configured for `(course title, activity name)` (default 1) and which are
valid on the queried date; a configured number matched by no offering's id
selects nothing for that section (there is no fall-back to the first
offering). -/
theorem c1_amended (courses : List Course) (dateOrd : Nat)
    (sel : List ((String × String) × Nat)) (c : Course) (a : Activity) :
    (c, a) ∈ activities_on courses dateOrd sel ↔
      (c ∈ courses ∧ a ∈ c.activities ∧
        a.activity_id.1 = selGet sel (c.title, a.name) ∧ a.valid_for dateOrd = true) := by
  unfold activities_on
  rw [mem_sortByKey]
  unfold selectedOn
  rw [List.mem_filter]
  simp only [List.mem_flatMap, List.mem_map, Bool.and_eq_true, beq_iff_eq, Prod.mk.injEq]
  constructor
  · rintro ⟨⟨c', hc', a', ha', hc, ha⟩, hid, hval⟩
    subst hc; subst ha
    exact ⟨hc', ha', hid, hval⟩
  · rintro ⟨hc, ha, hid, hval⟩
    exact ⟨⟨c, hc, a, ha, rfl, rfl⟩, hid, hval⟩

/-- **C2, counterexample** — the claim says the output of `activities_on`
is sorted with course title as the final tie-break.  Two courses titled
"BBB" and "AAA" (declared in that order), each with one valid activity at
the same weekday and start time: the output keeps the declaration order
`BBB, AAA`, and `claimKeyLe` (the claimed weekday/start/title key) does
not hold between the two output entries. -/
theorem c2_counterexample :
    activities_on
        [⟨"BBB", 2018, 1, [⟨(1, none), "L", 0, 600, 660, [], []⟩]⟩,
         ⟨"AAA", 2018, 1, [⟨(1, none), "L", 0, 600, 660, [], []⟩]⟩]
        8 [] =
      [(⟨"BBB", 2018, 1, [⟨(1, none), "L", 0, 600, 660, [], []⟩]⟩,
          ⟨(1, none), "L", 0, 600, 660, [], []⟩),
       (⟨"AAA", 2018, 1, [⟨(1, none), "L", 0, 600, 660, [], []⟩]⟩,
          ⟨(1, none), "L", 0, 600, 660, [], []⟩)] ∧
      claimKeyLe
        (⟨"BBB", 2018, 1, [⟨(1, none), "L", 0, 600, 660, [], []⟩]⟩,
          ⟨(1, none), "L", 0, 600, 660, [], []⟩)
        (⟨"AAA", 2018, 1, [⟨(1, none), "L", 0, 600, 660, [], []⟩]⟩,
          ⟨(1, none), "L", 0, 600, 660, [], []⟩) = false := by
  decide

/-- **C2, amended** — the output of `activities_on` is sorted by start time
alone; every output entry falls on the queried date's weekday (so the
weekday is uniform rather than a sort key); and entries with equal start
times keep the order of the filtered course-declaration chain (Python's
sort is stable) — there is no course-title tie-break. -/
theorem c2_amended (courses : List Course) (dateOrd : Nat)
    (sel : List ((String × String) × Nat)) :
    (activities_on courses dateOrd sel).Pairwise (fun p q => p.2.start ≤ q.2.start) ∧
      (∀ p ∈ activities_on courses dateOrd sel, weekday dateOrd = p.2.day) ∧
      (∀ s, (activities_on courses dateOrd sel).filter (fun p => p.2.start == s) =
        (selectedOn courses dateOrd sel).filter (fun p => p.2.start == s)) := by
  refine ⟨pairwise_sortByKey _ _, ?_, ?_⟩
  · intro p hp
    rw [show activities_on courses dateOrd sel
        = sortByKey (fun p => p.2.start) (selectedOn courses dateOrd sel) from rfl,
      mem_sortByKey] at hp
    unfold selectedOn at hp
    rw [List.mem_filter] at hp
    have hval := hp.2
    rw [Bool.and_eq_true] at hval
    have := hval.2
    unfold Activity.valid_for at this
    rw [Bool.and_eq_true, beq_iff_eq] at this
    exact this.1
  · intro s
    exact filter_sortByKey _ _ s

/-- **C9, counterexample** — the claim says the URL's occurrence code is
built from `year % 100`; the source computes `year % 1000`.  For the year
2118 the two differ (`118S1(C)` versus `18S1(C)`), so the constructed URL
is not the claimed one. -/
theorem c9_counterexample :
    Course.url ⟨"COSC262", 2118, 1, []⟩ ≠ Course.urlClaim100 ⟨"COSC262", 2118, 1, []⟩ := by
  decide

/-- **C9, amended** — `Course.url` embeds the occurrence code
`"{year % 1000}S{semester}(C)"`; for years 2000–2099 (every year the tool
is used on) this coincides with the spec's `year % 100` form. -/
theorem c9_amended (c : Course) (h1 : 2000 ≤ c.year) (h2 : c.year ≤ 2099) :
    Course.url c = Course.urlClaim100 c := by
  unfold Course.url Course.urlClaim100
  have h : c.year % 1000 = c.year % 100 := by omega
  rw [h]

/-- Witness for `c9_amended` at the year 2018. -/
theorem c9_amended_witness :
    Course.url ⟨"COSC262", 2018, 1, []⟩ = Course.urlClaim100 ⟨"COSC262", 2018, 1, []⟩ :=
  c9_amended ⟨"COSC262", 2018, 1, []⟩ (by decide) (by decide)

theorem cmpNat_eq_iff (a b : Nat) : cmpNat a b = Ordering.eq ↔ a = b := by
  unfold cmpNat
  split_ifs with h1 h2 <;> simp_all
  omega

theorem cmpNat_swap (a b : Nat) : cmpNat b a = (cmpNat a b).swap := by
  unfold cmpNat
  by_cases h1 : a < b
  · have h2 : ¬ b < a := by omega
    have h3 : ¬ b = a := by omega
    simp only [if_pos h1, if_neg h2, if_neg h3]
    rfl
  · by_cases h4 : a = b
    · subst h4
      simp only [if_neg h1, if_pos rfl]
      rfl
    · have h5 : b < a := by omega
      simp only [if_pos h5, if_neg h1, if_neg h4]
      rfl

theorem pyCmpOptNat_none_iff (x y : Option Nat) :
    pyCmpOptNat x y = none ↔ x.isNone ≠ y.isNone := by
  cases x <;> cases y <;> simp [pyCmpOptNat]

theorem pyCmpOptNat_eq_iff (x y : Option Nat) :
    pyCmpOptNat x y = some Ordering.eq ↔ x = y := by
  cases x <;> cases y <;> simp [pyCmpOptNat, cmpNat_eq_iff]

theorem pyCmpOptNat_swap (x y : Option Nat) :
    pyCmpOptNat y x = (pyCmpOptNat x y).map Ordering.swap := by
  cases x with
  | none => cases y <;> rfl
  | some a =>
    cases y with
    | none => rfl
    | some b =>
      show some (cmpNat b a) = Option.map Ordering.swap (some (cmpNat a b))
      rw [cmpNat_swap a b]
      rfl

theorem cmpChar_eq_iff (a b : Char) : cmpChar a b = Ordering.eq ↔ a = b := by
  unfold cmpChar
  rw [cmpNat_eq_iff]
  constructor
  · intro h
    apply Char.ext
    exact UInt32.ext h
  · intro h
    rw [h]

theorem cmpChar_swap (a b : Char) : cmpChar b a = (cmpChar a b).swap := cmpNat_swap _ _

theorem cmpList_eq_iff (f : α → α → Ordering)
    (hf : ∀ x y, f x y = Ordering.eq ↔ x = y) :
    ∀ xs ys : List α, cmpList f xs ys = Ordering.eq ↔ xs = ys := by
  intro xs
  induction xs with
  | nil => intro ys; cases ys <;> simp [cmpList]
  | cons x xs ih =>
    intro ys
    cases ys with
    | nil => simp [cmpList]
    | cons y ys =>
      show (match f x y with
        | Ordering.eq => cmpList f xs ys
        | Ordering.lt => Ordering.lt
        | Ordering.gt => Ordering.gt) = Ordering.eq ↔ _
      cases hfy : f x y with
      | eq =>
        have hxy : x = y := (hf x y).mp hfy
        subst hxy
        simp [ih ys]
      | lt =>
        simp only []
        constructor
        · intro h; cases h
        · rintro h
          injection h with h1 h2
          rw [h1] at hfy
          rw [(hf y y).mpr rfl] at hfy
          cases hfy
      | gt =>
        simp only []
        constructor
        · intro h; cases h
        · rintro h
          injection h with h1 h2
          rw [h1] at hfy
          rw [(hf y y).mpr rfl] at hfy
          cases hfy

theorem cmpList_swap (f : α → α → Ordering)
    (hf : ∀ x y, f y x = (f x y).swap) :
    ∀ xs ys : List α, cmpList f ys xs = (cmpList f xs ys).swap := by
  intro xs
  induction xs with
  | nil => intro ys; cases ys <;> rfl
  | cons x xs ih =>
    intro ys
    cases ys with
    | nil => rfl
    | cons y ys =>
      simp only [cmpList, hf x y]
      cases f x y with
      | eq => exact ih ys
      | lt => rfl
      | gt => rfl

theorem cmpStr_eq_iff (s t : String) : cmpStr s t = Ordering.eq ↔ s = t := by
  unfold cmpStr
  rw [cmpList_eq_iff cmpChar cmpChar_eq_iff]
  constructor
  · intro h
    cases s; cases t; simp_all
  · intro h; rw [h]

theorem cmpStr_swap (s t : String) : cmpStr t s = (cmpStr s t).swap :=
  cmpList_swap cmpChar cmpChar_swap s.data t.data

theorem cmpLocation_eq_iff (x y : Location) : cmpLocation x y = Ordering.eq ↔ x = y := by
  unfold cmpLocation
  cases hp : cmpStr x.place y.place with
  | eq =>
    rw [cmpList_eq_iff _ (cmpList_eq_iff cmpNat cmpNat_eq_iff)]
    have hpl : x.place = y.place := (cmpStr_eq_iff _ _).mp hp
    cases x; cases y
    simp_all
  | lt =>
    simp only []
    constructor
    · intro h; cases h
    · intro h
      rw [h, (cmpStr_eq_iff _ _).mpr rfl] at hp
      cases hp
  | gt =>
    simp only []
    constructor
    · intro h; cases h
    · intro h
      rw [h, (cmpStr_eq_iff _ _).mpr rfl] at hp
      cases hp

theorem cmpLocation_swap (x y : Location) : cmpLocation y x = (cmpLocation x y).swap := by
  unfold cmpLocation
  rw [cmpStr_swap x.place y.place,
    cmpList_swap _ (cmpList_swap cmpNat cmpNat_swap) x.valid_intervals y.valid_intervals]
  cases cmpStr x.place y.place <;> rfl

theorem ordering_then_eq_iff (o p : Ordering) :
    o.then p = Ordering.eq ↔ o = Ordering.eq ∧ p = Ordering.eq := by
  cases o <;> cases p <;> simp [Ordering.then]

theorem ordering_then_swap (o p : Ordering) : (o.then p).swap = o.swap.then p.swap := by
  cases o <;> cases p <;> rfl

theorem cmpActivityTail_eq_iff (a b : Activity) :
    cmpActivityTail a b = Ordering.eq ↔
      (a.name = b.name ∧ a.day = b.day ∧ a.start = b.start ∧ a.stop = b.stop ∧
        a.valid_intervals = b.valid_intervals ∧ a.locations = b.locations) := by
  unfold cmpActivityTail
  rw [ordering_then_eq_iff, ordering_then_eq_iff, ordering_then_eq_iff,
    ordering_then_eq_iff, ordering_then_eq_iff, cmpStr_eq_iff, cmpNat_eq_iff,
    cmpNat_eq_iff, cmpNat_eq_iff,
    cmpList_eq_iff _ (cmpList_eq_iff cmpNat cmpNat_eq_iff),
    cmpList_eq_iff cmpLocation cmpLocation_eq_iff]

theorem cmpActivityTail_swap (a b : Activity) :
    cmpActivityTail b a = (cmpActivityTail a b).swap := by
  unfold cmpActivityTail
  rw [cmpStr_swap a.name b.name, cmpNat_swap a.day b.day, cmpNat_swap a.start b.start,
    cmpNat_swap a.stop b.stop,
    cmpList_swap _ (cmpList_swap cmpNat cmpNat_swap) a.valid_intervals b.valid_intervals,
    cmpList_swap cmpLocation cmpLocation_swap a.locations b.locations]
  simp [ordering_then_swap]

theorem pyCmpActivity_swap (a b : Activity) :
    pyCmpActivity b a = (pyCmpActivity a b).map Ordering.swap := by
  unfold pyCmpActivity
  rw [cmpNat_swap a.activity_id.1 b.activity_id.1,
    pyCmpOptNat_swap a.activity_id.2 b.activity_id.2, cmpActivityTail_swap a b]
  cases cmpNat a.activity_id.1 b.activity_id.1 with
  | lt => rfl
  | gt => rfl
  | eq =>
    cases pyCmpOptNat a.activity_id.2 b.activity_id.2 with
    | none => rfl
    | some o => cases o <;> rfl

theorem pyCmpActivity_some_eq_iff (a b : Activity) :
    pyCmpActivity a b = some Ordering.eq ↔ a = b := by
  unfold pyCmpActivity
  cases h1 : cmpNat a.activity_id.1 b.activity_id.1 with
  | lt =>
    constructor
    · intro h
      injection h with h'
      cases h'
    · intro h
      subst h
      rw [(cmpNat_eq_iff _ _).mpr rfl] at h1
      cases h1
  | gt =>
    constructor
    · intro h
      injection h with h'
      cases h'
    · intro h
      subst h
      rw [(cmpNat_eq_iff _ _).mpr rfl] at h1
      cases h1
  | eq =>
    have hid1 : a.activity_id.1 = b.activity_id.1 := (cmpNat_eq_iff _ _).mp h1
    cases h2 : pyCmpOptNat a.activity_id.2 b.activity_id.2 with
    | none =>
      constructor
      · intro h
        cases h
      · intro h
        subst h
        rw [(pyCmpOptNat_eq_iff _ _).mpr rfl] at h2
        cases h2
    | some o =>
      cases o with
      | lt =>
        constructor
        · intro h
          injection h with h'
          cases h'
        · intro h
          subst h
          rw [(pyCmpOptNat_eq_iff _ _).mpr rfl] at h2
          injection h2 with h'
          cases h'
      | gt =>
        constructor
        · intro h
          injection h with h'
          cases h'
        · intro h
          subst h
          rw [(pyCmpOptNat_eq_iff _ _).mpr rfl] at h2
          injection h2 with h'
          cases h'
      | eq =>
        have hid2 : a.activity_id.2 = b.activity_id.2 := (pyCmpOptNat_eq_iff _ _).mp h2
        have hid : a.activity_id = b.activity_id := Prod.ext_iff.mpr ⟨hid1, hid2⟩
        simp only [Option.some.injEq]
        rw [cmpActivityTail_eq_iff]
        constructor
        · rintro ⟨hn, hd, hs, he, hv, hl⟩
          cases a
          cases b
          simp_all
        · intro h
          subst h
          exact ⟨rfl, rfl, rfl, rfl, rfl, rfl⟩

theorem pyCmpActivity_none_iff (a b : Activity) :
    pyCmpActivity a b = none ↔
      (a.activity_id.1 = b.activity_id.1 ∧
        a.activity_id.2.isNone ≠ b.activity_id.2.isNone) := by
  unfold pyCmpActivity
  cases h1 : cmpNat a.activity_id.1 b.activity_id.1 with
  | lt =>
    constructor
    · intro h
      cases h
    · rintro ⟨he, _⟩
      rw [(cmpNat_eq_iff _ _).mpr he] at h1
      cases h1
  | gt =>
    constructor
    · intro h
      cases h
    · rintro ⟨he, _⟩
      rw [(cmpNat_eq_iff _ _).mpr he] at h1
      cases h1
  | eq =>
    have hid1 : a.activity_id.1 = b.activity_id.1 := (cmpNat_eq_iff _ _).mp h1
    cases h2 : pyCmpOptNat a.activity_id.2 b.activity_id.2 with
    | none => exact iff_of_true rfl ⟨hid1, (pyCmpOptNat_none_iff _ _).mp h2⟩
    | some o =>
      cases o <;>
        · constructor
          · intro h
            cases h
          · rintro ⟨_, hne⟩
            rw [(pyCmpOptNat_none_iff _ _).mpr hne] at h2
            cases h2

/-- **C3, counterexample** — two activities that agree on every field
except that one id carries a sub-allocation part (`(1, None)` versus
`(1, 1)`, i.e. scraped ids `1` and `1-P1`): Python raises `TypeError` in
both comparison directions (embedded as `none`), and the values are not
equal, so none of `A<B`, `A==B`, `B<A` holds — the comparison is neither
total nor failure-free. -/
theorem c3_counterexample :
    pyCmpActivity ⟨(1, none), "L", 0, 0, 0, [], []⟩ ⟨(1, some 1), "L", 0, 0, 0, [], []⟩
        = none ∧
      pyCmpActivity ⟨(1, some 1), "L", 0, 0, 0, [], []⟩ ⟨(1, none), "L", 0, 0, 0, [], []⟩
        = none ∧
      (⟨(1, none), "L", 0, 0, 0, [], []⟩ : Activity) ≠ ⟨(1, some 1), "L", 0, 0, 0, [], []⟩ := by
  decide

/-- **C3, amended** — the attrs-generated `Activity` comparison fails
(Python `TypeError`) exactly when the two primary ids are equal and
exactly one of the two ids carries a sub-allocation part; whenever the
comparison succeeds it reflects equality and is antisymmetric under
swapping the arguments, and exactly one of `A<B`, `A==B`, `B<A` holds. -/
theorem c3_amended (a b : Activity) :
    (pyCmpActivity a b = none ↔
      (a.activity_id.1 = b.activity_id.1 ∧
        a.activity_id.2.isNone ≠ b.activity_id.2.isNone)) ∧
    (∀ o, pyCmpActivity a b = some o →
      ((o = Ordering.eq ↔ a = b) ∧ pyCmpActivity b a = some o.swap)) ∧
    (∀ o, pyCmpActivity a b = some o →
      ((pyCmpActivity a b = some Ordering.lt ∧ a ≠ b ∧
          pyCmpActivity b a ≠ some Ordering.lt) ∨
        (pyCmpActivity a b ≠ some Ordering.lt ∧ a = b ∧
          pyCmpActivity b a ≠ some Ordering.lt) ∨
        (pyCmpActivity a b ≠ some Ordering.lt ∧ a ≠ b ∧
          pyCmpActivity b a = some Ordering.lt))) := by
  refine ⟨pyCmpActivity_none_iff a b, ?_, ?_⟩
  · intro o ho
    constructor
    · constructor
      · rintro rfl
        exact (pyCmpActivity_some_eq_iff a b).mp ho
      · rintro rfl
        have h := (pyCmpActivity_some_eq_iff a a).mpr rfl
        rw [ho] at h
        injection h
    · rw [pyCmpActivity_swap a b, ho]
      rfl
  · intro o ho
    have hswap : pyCmpActivity b a = some o.swap := by
      rw [pyCmpActivity_swap a b, ho]
      rfl
    cases o with
    | lt =>
      left
      refine ⟨ho, ?_, ?_⟩
      · intro h
        have := (pyCmpActivity_some_eq_iff a b).mpr h
        rw [ho] at this
        injection this with h'
        cases h'
      · rw [hswap]
        intro h
        injection h with h'
        cases h'
    | eq =>
      right
      left
      have hab : a = b := (pyCmpActivity_some_eq_iff a b).mp ho
      refine ⟨?_, hab, ?_⟩
      · rw [ho]
        intro h
        injection h with h'
        cases h'
      · rw [hswap]
        intro h
        injection h with h'
        cases h'
    | gt =>
      right
      right
      refine ⟨?_, ?_, hswap⟩
      · rw [ho]
        intro h
        injection h with h'
        cases h'
      · intro h
        have := (pyCmpActivity_some_eq_iff a b).mpr h
        rw [ho] at this
        injection this with h'
        cases h'

/-- Witness for `c3_amended`: at two concrete comparable activities
(primary ids 1 and 2) the theorem's swap clause yields the reverse
comparison. -/
theorem c3_amended_witness :
    pyCmpActivity ⟨(2, none), "L", 0, 0, 0, [], []⟩ ⟨(1, none), "L", 0, 0, 0, [], []⟩
      = some Ordering.gt :=
  ((c3_amended ⟨(1, none), "L", 0, 0, 0, [], []⟩ ⟨(2, none), "L", 0, 0, 0, [], []⟩).2.1
    Ordering.lt (by decide)).2

theorem mapM_option_eq_none_iff (f : α → Option β) :
    ∀ l : List α, l.mapM f = none ↔ ∃ x ∈ l, f x = none := by
  intro l
  induction l with
  | nil =>
    rw [List.mapM_nil]
    simp
  | cons x xs ih =>
    rw [List.mapM_cons]
    constructor
    · intro h
      cases hfx : f x with
      | none => exact ⟨x, List.mem_cons_self x xs, hfx⟩
      | some y =>
        cases hxs : xs.mapM f with
        | none =>
          obtain ⟨z, hz, hzn⟩ := ih.mp hxs
          exact ⟨z, List.mem_cons_of_mem x hz, hzn⟩
        | some ys =>
          rw [hfx, hxs] at h
          exact Option.noConfusion h
    · rintro ⟨z, hz, hzn⟩
      rcases List.mem_cons.mp hz with rfl | hzxs
      · rw [hzn]
        rfl
      · have hxs : xs.mapM f = none := ih.mpr ⟨z, hzxs, hzn⟩
        cases hfx : f x with
        | none => rfl
        | some y =>
          rw [hxs]
          rfl

theorem findParen_eq_none (cs : List Char) (h : '(' ∉ cs) : findParen cs = none := by
  induction cs with
  | nil => rfl
  | cons c rest ih =>
    have hc : ¬ c = '(' := fun hh => h (hh ▸ List.mem_cons_self c rest)
    have hr : '(' ∉ rest := fun hh => h (List.mem_cons_of_mem c hh)
    simp [findParen, hc, ih hr]

theorem regexParen_eq_none (cs : List Char) (h : '(' ∉ cs) : regexParen cs = none := by
  cases cs with
  | nil => rfl
  | cons c rest =>
    have hc : ¬ c = '(' := fun hh => h (hh ▸ List.mem_cons_self c rest)
    have hr : '(' ∉ rest := fun hh => h (List.mem_cons_of_mem c hh)
    simp [regexParen, findParen_eq_none rest hr, hc]

theorem not_paren_lineCore (cs : List Char) (h : '(' ∉ cs) : '(' ∉ lineCore cs := by
  unfold lineCore
  by_cases hc : (cs.getLast? == some '\n') = true
  · rw [if_pos hc]
    intro hmem
    exact h ((List.dropLast_sublist cs).subset hmem)
  · rw [if_neg hc]
    exact h

/-- **C10, counterexample** — the claim says every string containing `(`
whose parenthesized content is not a comma-separated list of `d/m` dates
or `d/m-d/m` ranges raises `ValueError`.  `"Room (1/2-3/4-5/6)"` contains
`(`, its date group (as `LOCATION_RE` captures it) is `1/2-3/4-5/6`, which
is neither a date nor a two-ended range (`claimContentValid` rejects it) —
yet `from_string` happily returns a `Location` carrying a three-element
interval tuple instead of raising. -/
theorem c10_counterexample :
    '(' ∈ "Room (1/2-3/4-5/6)".data ∧
      locationMatch "Room (1/2-3/4-5/6)" = some ("Room ", "1/2-3/4-5/6") ∧
      claimContentValid 2018 "1/2-3/4-5/6" = false ∧
      location_from_string 2018 "Room (1/2-3/4-5/6)"
        = some ⟨"Room", [[20180201, 20180403, 20180605]]⟩ := by
  decide

/-- **C10, amended** — `Location.from_string` raises `ValueError` iff
`LOCATION_RE` matches (a `(` with at least one character after it exists)
and some `-`-separated fragment of some `', '`-separated piece of the date
group fails to parse as `%d/%m`; hyphen-chains of three or more valid
dates are accepted and produce longer interval tuples.  An input with no
`(` at all yields a `Location` with the whole string as place and an empty
interval list, valid for every date. -/
theorem c10_amended (in_year : Nat) (s : String) :
    ('(' ∉ s.data →
      (location_from_string in_year s = some ⟨s, []⟩ ∧
        ∀ d, Location.valid_for ⟨s, []⟩ d = true)) ∧
    (location_from_string in_year s = none ↔
      ∃ np dp, locationMatch s = some (np, dp) ∧
        ∃ iv ∈ splitCommaSpace dp.data, ∃ p ∈ splitChar '-' iv,
          parse_dm in_year (String.mk p) = none) := by
  constructor
  · intro h
    have hm : locationMatch s = none := by
      unfold locationMatch
      by_cases hnl : ((lineCore s.data).any (fun c => c == '\n')) = true
      · rw [if_pos hnl]
      · rw [if_neg hnl, regexParen_eq_none _ (not_paren_lineCore s.data h)]
    constructor
    · unfold location_from_string
      rw [hm]
    · intro d
      rfl
  · unfold location_from_string
    cases hm : locationMatch s with
    | none =>
      constructor
      · intro h
        cases h
      · rintro ⟨np, dp, hnp, _⟩
        cases hnp
    | some p =>
      obtain ⟨np, dp⟩ := p
      show (match (splitCommaSpace dp.data).mapM
          (fun iv => (splitChar '-' iv).mapM fun p => parse_dm in_year (String.mk p)) with
        | none => none
        | some ivs => some (Location.mk (String.mk (trimChars np.data)) ivs)) = none ↔ _
      cases hiv : (splitCommaSpace dp.data).mapM
          (fun iv => (splitChar '-' iv).mapM fun p => parse_dm in_year (String.mk p)) with
      | none =>
        rw [mapM_option_eq_none_iff] at hiv
        obtain ⟨iv, hivmem, hfrag⟩ := hiv
        rw [mapM_option_eq_none_iff] at hfrag
        obtain ⟨q, hqmem, hq⟩ := hfrag
        exact iff_of_true rfl ⟨np, dp, rfl, iv, hivmem, q, hqmem, hq⟩
      | some ivs =>
        constructor
        · intro h
          cases h
        · rintro ⟨np', dp', hm', iv, hivmem, q, hqmem, hq⟩
          injection hm' with hpair
          have hdp : dp = dp' := congrArg Prod.snd hpair
          subst hdp
          have hnone : (splitCommaSpace dp.data).mapM
              (fun iv => (splitChar '-' iv).mapM fun p => parse_dm in_year (String.mk p))
                = none := by
            rw [mapM_option_eq_none_iff]
            refine ⟨iv, hivmem, ?_⟩
            rw [mapM_option_eq_none_iff]
            exact ⟨q, hqmem, hq⟩
          rw [hnone] at hiv
          cases hiv

/-- Witness for `c10_amended`: the spec's own scenario — a location string
with no parenthesized dates yields a `Location` valid for every date. -/
theorem c10_amended_witness :
    location_from_string 2018 "C2 Lecture Theatre" = some ⟨"C2 Lecture Theatre", []⟩ ∧
      Location.valid_for ⟨"C2 Lecture Theatre", []⟩ 737000 = true :=
  ⟨((c10_amended 2018 "C2 Lecture Theatre").1 (by decide)).1,
    ((c10_amended 2018 "C2 Lecture Theatre").1 (by decide)).2 737000⟩

/-- **C8, counterexample** — the claim says a row whose identifier fails
the id grammar is rejected locally while the course's remaining rows still
load.  With a well-formed row followed by a row whose id `X1` matches
neither `<int>` nor `<int>-P<int>`, the whole comprehension in
`fetch_activities` raises (`none`): no activities load at all, even though
the first row parses fine on its own. -/
theorem c8_counterexample :
    fetch_parse 2018
        [("Lecture A", ⟨"01", "Monday", "10:00 - 11:00", "C2", "26 Feb - 26 Mar"⟩),
         ("Lecture A", ⟨"X1", "Monday", "10:00 - 11:00", "C2", "26 Feb - 26 Mar"⟩)] = none ∧
      rowToActivity "Lecture A" 2018 ⟨"01", "Monday", "10:00 - 11:00", "C2", "26 Feb - 26 Mar"⟩
        = some ⟨(1, none), "Lecture A", 0, 600, 660, [[20180226, 20180326]], [⟨"C2", []⟩]⟩ ∧
      rowToActivity "Lecture A" 2018 ⟨"X1", "Monday", "10:00 - 11:00", "C2", "26 Feb - 26 Mar"⟩
        = none := by
  decide

/-- **C8, amended** — `Course.fetch_activities` assigns `self.activities`
through one list comprehension over all scraped rows, so the whole load
fails exactly when some row fails to parse: there is no per-row isolation
(and no `ParseError` type in the source — row failures are plain
`ValueError`s). -/
theorem c8_amended (in_year : Nat) (rows : List (String × Row)) :
    fetch_parse in_year rows = none ↔
      ∃ p ∈ rows, rowToActivity p.1 in_year p.2 = none := by
  unfold fetch_parse
  exact mapM_option_eq_none_iff _ rows

theorem nextLoop_group (t s : Nat) :
    ∀ (rest acc : List MItem) (l : MItem),
      acc.getLast? = some l → l.startHM = s →
      nextLoop t acc rest = acc ++ rest.takeWhile (fun i => i.startHM == s) := by
  intro rest
  induction rest with
  | nil =>
    intro acc l hl hs
    simp [nextLoop]
  | cons a as ih =>
    intro acc l hl hs
    by_cases ha : a.startHM = s
    · have hcond : (a.startHM == l.startHM) = true := beq_iff_eq.mpr (ha.trans hs.symm)
      have hlast : (acc ++ [a]).getLast? = some a := List.getLast?_concat acc
      have hstep : nextLoop t acc (a :: as) = nextLoop t (acc ++ [a]) as := by
        simp only [nextLoop, hl, hcond, if_true]
      rw [hstep, ih (acc ++ [a]) a hlast ha]
      simp [List.takeWhile_cons, ha]
    · have hcond : (a.startHM == l.startHM) = false := by
        apply beq_eq_false_iff_ne.mpr
        rw [hs]
        exact ha
      have hstep : nextLoop t acc (a :: as) = acc := by
        simp [nextLoop, hl, hcond]
      rw [hstep, List.takeWhile_cons_of_neg (by simp [ha]), List.append_nil]

/-- **C5, counterexample** — the claim says the "next" query returns only
activities valid on the instant's date.  The per-day buckets `main.cli`
builds never check the week-validity intervals, and `show_next` checks
none either: an activity whose weeks exclude the queried date (weekday
matches, but date 100 is outside the stored interval `[5, 6]`) is still
returned as the next class. -/
theorem c5_counterexample :
    show_next_classes 570 [⟨1, 600, 660, [[5, 6]], "COSC262", "Lecture A"⟩]
        = [⟨1, 600, 660, [[5, 6]], "COSC262", "Lecture A"⟩] ∧
      weekday 100 = 1 ∧
      validForM ⟨1, 600, 660, [[5, 6]], "COSC262", "Lecture A"⟩ 100 = false := by
  decide

/-- **C5, amended** — on the (sorted) bucket of the query's weekday,
`show_next`'s loop returns exactly the group of bucket entries whose start
time is strictly after the query's hour-and-minute and which share the
earliest such start (all simultaneous ones, not just one); week-interval
validity on the query's date is not consulted. -/
theorem c5_amended (t : Nat) : ∀ xs : List MItem,
    xs.Pairwise (fun a b => a.startHM ≤ b.startHM) →
    show_next_classes t xs = specNextGroup t xs := by
  intro xs
  induction xs with
  | nil => intro _; rfl
  | cons x rest ih =>
    intro hsort
    obtain ⟨hx, hrest⟩ := List.pairwise_cons.mp hsort
    show nextLoop t [] (x :: rest) = specNextGroup t (x :: rest)
    by_cases hxt : t < x.startHM
    · have hstep : nextLoop t [] (x :: rest) = nextLoop t [x] rest := by
        show (if t < x.startHM then nextLoop t [x] rest else nextLoop t [] rest)
          = nextLoop t [x] rest
        rw [if_pos hxt]
      have hgroup := nextLoop_group t x.startHM rest [x] x rfl rfl
      have hfilter : rest.filter (fun i => decide (t < i.startHM)) = rest := by
        rw [List.filter_eq_self]
        intro b hb
        simp only [decide_eq_true_eq]
        have := hx b hb
        omega
      have hspec : specNextGroup t (x :: rest)
          = x :: rest.takeWhile (fun i => i.startHM == x.startHM) := by
        unfold specNextGroup
        rw [List.filter_cons_of_pos (by simp [hxt]), hfilter]
        show (x :: rest).takeWhile (fun i => i.startHM == x.startHM) = _
        rw [List.takeWhile_cons_of_pos (by simp)]
      rw [hstep, hgroup, hspec]
      rfl
    · have hstep : nextLoop t [] (x :: rest) = nextLoop t [] rest := by
        show (if t < x.startHM then nextLoop t [x] rest else nextLoop t [] rest)
          = nextLoop t [] rest
        rw [if_neg hxt]
      have hspec : specNextGroup t (x :: rest) = specNextGroup t rest := by
        unfold specNextGroup
        rw [List.filter_cons_of_neg (by simp [hxt])]
      rw [hstep, hspec]
      exact ih hrest

/-- Witness for `c5_amended`: the spec's own scenario — a 09:30 query
against two different-course activities both at 10:00 returns both. -/
theorem c5_amended_witness :
    show_next_classes 570
        [⟨2, 600, 660, [], "COSC262", "Lecture A"⟩, ⟨2, 600, 660, [], "MATH120", "Lecture A"⟩]
      = specNextGroup 570
        [⟨2, 600, 660, [], "COSC262", "Lecture A"⟩, ⟨2, 600, 660, [], "MATH120", "Lecture A"⟩] :=
  c5_amended 570
    [⟨2, 600, 660, [], "COSC262", "Lecture A"⟩, ⟨2, 600, 660, [], "MATH120", "Lecture A"⟩]
    (by decide)

theorem binAllAux_cons (bins : List (List MItem)) (it : MItem) (rest : List MItem) :
    binAllAux bins (it :: rest)
      = match placeIn it bins (hourIndex it.startHM) (lengthHours it.startHM it.endHM) with
        | none => none
        | some b2 => binAllAux b2 rest := rfl

theorem getD_set_self (l : List α) (i : Nat) (a d : α) (h : i < l.length) :
    (l.set i a).getD i d = a := by
  rw [List.getD_eq_getElem?_getD, List.getElem?_set_self h]
  rfl

theorem getD_set_ne (l : List α) (i j : Nat) (a d : α) (h : i ≠ j) :
    (l.set i a).getD j d = l.getD j d := by
  rw [List.getD_eq_getElem?_getD, List.getD_eq_getElem?_getD, List.getElem?_set_ne h]

theorem getD_replicate_self (n i : Nat) (a : α) : (List.replicate n a).getD i a = a := by
  induction n generalizing i with
  | zero => simp [List.getD]
  | succ n ih =>
    cases i with
    | zero => rfl
    | succ j =>
      rw [List.replicate_succ, List.getD_cons_succ]
      exact ih j

theorem placeIn_getD (it : MItem) :
    ∀ (d k : Nat) (bins : List (List MItem)), k + d ≤ bins.length →
      ∃ bins2, placeIn it bins k d = some bins2 ∧ bins2.length = bins.length ∧
        ∀ i, bins2.getD i [] =
          if k ≤ i ∧ i < k + d then bins.getD i [] ++ [it] else bins.getD i [] := by
  intro d
  induction d with
  | zero =>
    intro k bins hk
    refine ⟨bins, rfl, rfl, ?_⟩
    intro i
    have hno : ¬ (k ≤ i ∧ i < k + 0) := by omega
    rw [if_neg hno]
  | succ d ih =>
    intro k bins hk
    have hklt : k < bins.length := by omega
    have hstep : placeIn it bins k (d + 1)
        = placeIn it (bins.set k (bins.getD k [] ++ [it])) (k + 1) d := by
      show (if k < bins.length
        then placeIn it (bins.set k (bins.getD k [] ++ [it])) (k + 1) d else none) = _
      rw [if_pos hklt]
    obtain ⟨bins2, hp, hlen, hget⟩ := ih (k + 1) (bins.set k (bins.getD k [] ++ [it]))
      (by rw [List.length_set]; omega)
    refine ⟨bins2, by rw [hstep]; exact hp, by rw [hlen, List.length_set], ?_⟩
    intro i
    rw [hget i]
    by_cases hik : i = k
    · subst hik
      have h1 : ¬ (i + 1 ≤ i ∧ i < i + 1 + d) := by omega
      have h2 : i ≤ i ∧ i < i + (d + 1) := by omega
      rw [if_neg h1, if_pos h2]
      exact getD_set_self bins i _ [] hklt
    · have hgd : (bins.set k (bins.getD k [] ++ [it])).getD i []
          = bins.getD i [] := getD_set_ne bins k i _ [] (fun hh => hik hh.symm)
      rw [hgd]
      by_cases hc : k ≤ i ∧ i < k + (d + 1)
      · have hc2 : k + 1 ≤ i ∧ i < k + 1 + d := by omega
        rw [if_pos hc2, if_pos hc]
      · have hc2 : ¬ (k + 1 ≤ i ∧ i < k + 1 + d) := by omega
        rw [if_neg hc2, if_neg hc]

/-- **C6, counterexample** — the claim says two overlapping activities
from different courses are flagged as a clash while same-course overlaps
are not.  `render_day` contains no clash logic at all: for a
different-course Wednesday 10:00–11:00 overlap the cell is exactly the
plain newline-join of the two labels, identical in shape to the
same-course case — no marker distinguishes the two. -/
theorem c6_counterexample :
    render_day "Wednesday"
        [⟨2, 600, 660, [], "COSC262", "Lecture A"⟩, ⟨2, 600, 660, [], "MATH120", "Lecture A"⟩]
      = some ["Wednesday", "", "", "COSC262 Lecture A\nMATH120 Lecture A",
          "", "", "", "", "", ""] ∧
      render_day "Wednesday"
          [⟨2, 600, 660, [], "COSC262", "Lecture A"⟩, ⟨2, 600, 660, [], "COSC262", "Tutorial A"⟩]
        = some ["Wednesday", "", "", "COSC262 Lecture A\nCOSC262 Tutorial A",
            "", "", "", "", "", ""] := by
  decide

/-- **C6, amended** — activities sharing a bin are joined with a newline
separator and nothing else: the rendered output is the same function of
the two labels whatever the course titles are (equal or different), so no
clash flagging of any kind occurs in rendering. -/
theorem c6_amended (day t1 s1 t2 s2 : String) (dy1 dy2 : Nat)
    (vi1 vi2 : List (List Nat)) :
    render_day day [⟨dy1, 600, 660, vi1, t1, s1⟩, ⟨dy2, 600, 660, vi2, t2, s2⟩]
      = some [day, "", "", (t1 ++ " " ++ s1) ++ "\n" ++ (t2 ++ " " ++ s2),
          "", "", "", "", "", ""] := by
  have hsort : sortByKey (fun i => i.startHM)
      [(⟨dy1, 600, 660, vi1, t1, s1⟩ : MItem), ⟨dy2, 600, 660, vi2, t2, s2⟩]
      = [⟨dy1, 600, 660, vi1, t1, s1⟩, ⟨dy2, 600, 660, vi2, t2, s2⟩] := rfl
  have hp1 : placeIn (⟨dy1, 600, 660, vi1, t1, s1⟩ : MItem) (List.replicate 9 []) 2 1
      = some [[], [], [⟨dy1, 600, 660, vi1, t1, s1⟩], [], [], [], [], [], []] := rfl
  have hp2 : placeIn (⟨dy2, 600, 660, vi2, t2, s2⟩ : MItem)
      [[], [], [⟨dy1, 600, 660, vi1, t1, s1⟩], [], [], [], [], [], []] 2 1
      = some [[], [],
          [⟨dy1, 600, 660, vi1, t1, s1⟩, ⟨dy2, 600, 660, vi2, t2, s2⟩],
          [], [], [], [], [], []] := rfl
  have hbin : binAll [(⟨dy1, 600, 660, vi1, t1, s1⟩ : MItem), ⟨dy2, 600, 660, vi2, t2, s2⟩]
      = some [[], [],
          [⟨dy1, 600, 660, vi1, t1, s1⟩, ⟨dy2, 600, 660, vi2, t2, s2⟩],
          [], [], [], [], [], []] := by
    show binAllAux (List.replicate 9 [])
        [⟨dy1, 600, 660, vi1, t1, s1⟩, ⟨dy2, 600, 660, vi2, t2, s2⟩] = _
    rw [binAllAux_cons,
      show (⟨dy1, 600, 660, vi1, t1, s1⟩ : MItem).startHM = 600 from rfl,
      show (⟨dy1, 600, 660, vi1, t1, s1⟩ : MItem).endHM = 660 from rfl,
      show hourIndex 600 = 2 from rfl, show lengthHours 600 660 = 1 from rfl, hp1]
    show binAllAux [[], [], [⟨dy1, 600, 660, vi1, t1, s1⟩], [], [], [], [], [], []]
        [⟨dy2, 600, 660, vi2, t2, s2⟩] = _
    rw [binAllAux_cons,
      show (⟨dy2, 600, 660, vi2, t2, s2⟩ : MItem).startHM = 600 from rfl,
      show (⟨dy2, 600, 660, vi2, t2, s2⟩ : MItem).endHM = 660 from rfl,
      show hourIndex 600 = 2 from rfl, show lengthHours 600 660 = 1 from rfl, hp2]
    rfl
  show (binAll (sortByKey (fun i => i.startHM)
      [⟨dy1, 600, 660, vi1, t1, s1⟩, ⟨dy2, 600, 660, vi2, t2, s2⟩])).map _ = _
  rw [hsort, hbin]
  rfl

/-- **C7, counterexample** — the claim says an activity occupies exactly
the bins its range intersects and out-of-grid activities are omitted
without error.  A 09:00–09:30 activity intersects the `09:00 - 10:00` bin
yet lands in no bin at all (its floored length is 0 hours), and a
17:00–18:00 activity makes the renderer fail with `IndexError` (`none`)
instead of being omitted. -/
theorem c7_counterexample :
    binAll [⟨2, 540, 570, [], "COSC262", "Lecture A"⟩] = some (List.replicate 9 []) ∧
      binAll [⟨2, 1020, 1080, [], "COSC262", "Lecture A"⟩] = none ∧
      render_day "Wednesday" [⟨2, 1020, 1080, [], "COSC262", "Lecture A"⟩] = none := by
  decide

/-- **C7, amended** — an activity with an hour-aligned start `08:00 + k h`
and a whole-hour length `d ≥ 1` lying inside the grid (`k + d ≤ 9`) is
binned into exactly the `d` consecutive hourly bins `k … k + d - 1` it
intersects; sub-hour or misaligned activities can miss bins they
intersect, and activities outside the grid hours raise `IndexError`
rather than being omitted. -/
theorem c7_amended (dy : Nat) (vi : List (List Nat)) (ct sn : String) (k d : Nat)
    (hd : 1 ≤ d) (hkd : k + d ≤ 9) :
    binAll [⟨dy, 480 + 60 * k, 480 + 60 * (k + d), vi, ct, sn⟩]
      = some ((List.range 9).map fun i =>
          if k ≤ i ∧ i < k + d
          then [⟨dy, 480 + 60 * k, 480 + 60 * (k + d), vi, ct, sn⟩] else []) := by
  have hk8 : k ≤ 8 := by omega
  have hidx : hourIndex (480 + 60 * k) = k := by
    unfold hourIndex
    omega
  have hlh : lengthHours (480 + 60 * k) (480 + 60 * (k + d)) = d := by
    unfold lengthHours
    omega
  obtain ⟨bins2, hp, hlen, hget⟩ :=
    placeIn_getD (⟨dy, 480 + 60 * k, 480 + 60 * (k + d), vi, ct, sn⟩ : MItem) d k
      (List.replicate 9 []) (by simpa using hkd)
  have hbin : binAll [(⟨dy, 480 + 60 * k, 480 + 60 * (k + d), vi, ct, sn⟩ : MItem)]
      = some bins2 := by
    show binAllAux (List.replicate 9 [])
      [⟨dy, 480 + 60 * k, 480 + 60 * (k + d), vi, ct, sn⟩] = some bins2
    rw [binAllAux_cons,
      show (⟨dy, 480 + 60 * k, 480 + 60 * (k + d), vi, ct, sn⟩ : MItem).startHM
        = 480 + 60 * k from rfl,
      show (⟨dy, 480 + 60 * k, 480 + 60 * (k + d), vi, ct, sn⟩ : MItem).endHM
        = 480 + 60 * (k + d) from rfl,
      hidx, hlh, hp]
    rfl
  rw [hbin]
  congr 1
  apply List.ext_getElem
  · rw [hlen]
    simp
  · intro i h1 h2
    have hi9 : i < 9 := by
      rw [hlen] at h1
      simpa using h1
    rw [← List.getD_eq_getElem bins2 [] h1, hget i,
      getD_replicate_self 9 i ([] : List MItem), List.getElem_map, List.getElem_range]
    by_cases hc : k ≤ i ∧ i < k + d
    · rw [if_pos hc, if_pos hc]
      rfl
    · rw [if_neg hc, if_neg hc]

/-- Witness for `c7_amended`: the spec's own scenario — a 09:00–11:00
activity occupies exactly the `09:00 - 10:00` and `10:00 - 11:00` bins. -/
theorem c7_amended_witness :
    binAll [⟨0, 540, 660, [], "COSC262", "Lecture A"⟩]
      = some ((List.range 9).map fun i =>
          if 1 ≤ i ∧ i < 1 + 2 then [⟨0, 540, 660, [], "COSC262", "Lecture A"⟩] else []) :=
  c7_amended 0 [] "COSC262" "Lecture A" 1 2 (by decide) (by decide)
